import Mathlib

/-!
Verification of the LifeShield backend (src/main.py): the feature
reconciliation pipeline of the `predict` endpoint, the risk interpreter
`get_risk_metadata`, and the `health_check` endpoint, embedded shallowly.

Feature values travel as a coproduct: `Value.num q` stands for any value the
numeric stack coerces to a number (ints, floats, bools, numeric strings),
`Value.nonNum` for a value that cannot be coerced (`scaler.transform` /
`predict_proba` raise on those). A raw record is an association list from
field name to value, mirroring the request's `features` dict. A data frame
row is likewise an association list of (column name, value), preserving
column order.
-/

namespace LifeShield

/-- A feature value: either numerically coercible or not. -/
inductive Value where
  | num (q : ℚ)
  | nonNum (s : String)
deriving DecidableEq, Repr

/-- A raw record or a single-row data frame: ordered (column, value) pairs. -/
abbrev Record := List (String × Value)

/-- Dictionary lookup by field name (first occurrence). -/
def lookupField : Record → String → Option Value
  | [], _ => none
  | (k, v) :: rest, n => if k = n then some v else lookupField rest n

/-- Embeds `input_df.reindex(columns=schema, fill_value=0)`: one column per
schema name in schema order, values taken from the record, absent names
filled with the number 0 (src/main.py lines 149 and 160). -/
def reindexRecord (raw : Record) (schema : List String) : Record :=
  schema.map (fun n => ((n, (lookupField raw n).getD (Value.num 0)) : String × Value))

/-- Numeric coercion of one value; `none` models the ValueError the numeric
stack raises on a value it cannot convert to a float. -/
def coerceValue : Value → Option ℚ
  | Value.num q => some q
  | Value.nonNum _ => none

/-- Coercion of a whole row; fails if any single value fails. -/
def coerceRow : List Value → Option (List ℚ)
  | [] => some []
  | v :: vs =>
    match coerceValue v, coerceRow vs with
    | some q, some qs => some (q :: qs)
    | _, _ => none

/-- Whether a data frame already has a column of the given name. -/
def hasColumn (df : Record) (n : String) : Bool :=
  df.any (fun p => decide (p.1 = n))

/-- Embeds the pandas assignment `final_df[col] = v` (src/main.py line 164):
if the column exists, every occurrence is overwritten in place; otherwise a
new column is appended at the end. -/
def setColumn (df : Record) (n : String) (v : Value) : Record :=
  if hasColumn df n then
    df.map (fun p => if p.1 = n then ((n, v) : String × Value) else p)
  else
    df ++ [(n, v)]

/-- Embeds the overlay loop `for i, col in enumerate(scaler_features):
final_df[col] = scaled_features[:, i]` (src/main.py lines 163-164).
Walks the scaler schema in order consuming one transformed value per column;
`none` models the IndexError raised when `scaled_features` has fewer columns
than `scaler_features` (extra transformed columns are silently unused, as
the loop never reaches them). -/
def overlay : Record → List String → List ℚ → Option Record
  | df, [], _ => some df
  | _, _ :: _, [] => none
  | df, c :: cs, v :: vs => overlay (setColumn df c (Value.num v)) cs vs

/-- A reconciliation failure inside the `try` block, before the classifier:
the exception kind that would be raised. -/
inductive ReconcileError where
  | nonNumeric
  | widthMismatch
deriving DecidableEq, Repr

/-- The feature reconciliation pipeline of `predict` (src/main.py lines
144-164): reindex to the scaler schema with 0-fill, coerce and transform,
reindex to the model schema with 0-fill, then overlay the transformed
columns. Returns the final single-row data frame handed to the classifier. -/
def reconcile (tf : List ℚ → List ℚ) (scaler_features model_features : List String)
    (raw : Record) : Except ReconcileError Record :=
  let df_for_scaler := reindexRecord raw scaler_features
  match coerceRow (df_for_scaler.map Prod.snd) with
  | none => Except.error ReconcileError.nonNumeric
  | some row =>
    let scaled_features := tf row
    let final_df := reindexRecord raw model_features
    match overlay final_df scaler_features scaled_features with
    | none => Except.error ReconcileError.widthMismatch
    | some final => Except.ok final

/-- The fitted scaler artifact: optional self-described input schema
(`feature_names_in_`) and the fitted row transform. -/
structure Scaler where
  feature_names : Option (List String)
  transform : List ℚ → List ℚ

/-- The fitted classifier artifact: optional self-described input schema and
the positive-class probability function; `none` models an exception raised
at call time (for example an input width mismatch). -/
structure Model where
  feature_names : Option (List String)
  predict_proba : List ℚ → Option ℚ

/-- Per-request API error: 503 when artifacts are missing, 500 for any
exception inside the `try` block (src/main.py lines 140 and 183). -/
inductive ApiError where
  | unavailable
  | internalError
deriving DecidableEq, Repr

/-- HTTP status code of each per-request error. -/
def ApiError.status : ApiError → Nat
  | ApiError.unavailable => 503
  | ApiError.internalError => 500

/-- Banker's rounding of a rational to the nearest integer, halves to even;
models Python's `round` on the exact value. -/
def roundHalfEven (q : ℚ) : ℤ :=
  let f := Int.floor q
  let r := q - f
  if r < 1/2 then f
  else if 1/2 < r then f + 1
  else if f % 2 = 0 then f else f + 1

/-- Models Python's `round(x, ndigits)` on the exact value. -/
def pyRound (ndigits : Nat) (q : ℚ) : ℚ :=
  (roundHalfEven (q * 10 ^ ndigits) : ℚ) / 10 ^ ndigits

/-- The recommendation string for the low band (src/main.py line 100). -/
def recLow : String :=
  "Your health indicators look great. Maintain your current lifestyle and regular checkups."

/-- The recommendation string for the moderate band (src/main.py line 103). -/
def recModerate : String :=
  "Some indicators suggest potential risks. Consider consulting a professional and reviewing your diet/exercise habits."

/-- The recommendation string for the high band (src/main.py line 106). -/
def recHigh : String :=
  "High-risk indicators detected. We strongly recommend scheduling a comprehensive medical evaluation."

/-- Embeds `get_risk_metadata` (src/main.py lines 97-113): risk level and
recommendation by band, confidence as distance from the 0.5 boundary,
vitality score as `(1 - prob) * 100`. -/
def get_risk_metadata (prob : ℚ) : String × ℚ × ℚ × String :=
  let lr : String × String :=
    if prob < 3/10 then ("Low", recLow)
    else if prob < 7/10 then ("Moderate", recModerate)
    else ("High", recHigh)
  let confidence := |prob - 1/2| * 2
  let vitality_score := (1 - prob) * 100
  (lr.1, confidence, vitality_score, lr.2)

/-- Risk level component of the interpreter. -/
def riskLevel (prob : ℚ) : String := (get_risk_metadata prob).1

/-- Confidence component of the interpreter. -/
def confidenceOf (prob : ℚ) : ℚ := (get_risk_metadata prob).2.1

/-- The structured prediction response (src/main.py lines 89-94, 173-179). -/
structure PredictionResponse where
  risk_probability : ℚ
  risk_level : String
  confidence : ℚ
  vitality_score : ℚ
  recommendation : String
deriving DecidableEq, Repr

/-- Embeds the `/predict` endpoint (src/main.py lines 134-183). The three
globals `model`, `scaler`, `feature_columns` are passed as options; any of
them missing yields the 503 gate before any reconciliation. Each artifact's
schema is `getattr(obj, "feature_names_in_", feature_columns)`. Any
exception inside the `try` block (non-coercible value, overlay index error,
classifier failure) becomes the 500 internal error. -/
def predict (model? : Option Model) (scaler? : Option Scaler)
    (feature_columns? : Option (List String)) (raw : Record) :
    Except ApiError PredictionResponse :=
  match model?, scaler?, feature_columns? with
  | some m, some s, some feature_columns =>
    let scaler_features := s.feature_names.getD feature_columns
    let model_features := m.feature_names.getD feature_columns
    match reconcile s.transform scaler_features model_features raw with
    | Except.error _ => Except.error ApiError.internalError
    | Except.ok final_df =>
      match coerceRow (final_df.map Prod.snd) with
      | none => Except.error ApiError.internalError
      | some finalRow =>
        match m.predict_proba finalRow with
        | none => Except.error ApiError.internalError
        | some p =>
          let md := get_risk_metadata p
          Except.ok
            { risk_probability := pyRound 4 p
              risk_level := md.1
              confidence := pyRound 4 md.2.1
              vitality_score := pyRound 2 md.2.2.1
              recommendation := md.2.2.2 }
  | _, _, _ => Except.error ApiError.unavailable

/-- Embeds the `/health` endpoint (src/main.py lines 126-132): a constant
status string plus the conjunction of the three artifact presence checks. -/
def health_check (model? : Option Model) (scaler? : Option Scaler)
    (feature_columns? : Option (List String)) : String × Bool :=
  ("healthy", model?.isSome && scaler?.isSome && feature_columns?.isSome)

/-! ## Basic lemmas about the record and data frame operations -/

theorem lookupField_append (df l : Record) (m : String) :
    lookupField (df ++ l) m =
      match lookupField df m with
      | some v => some v
      | none => lookupField l m := by
  induction df with
  | nil => rfl
  | cons p rest ih =>
    obtain ⟨k, v⟩ := p
    by_cases h : k = m
    · simp [lookupField, h]
    · simp [lookupField, h, ih]

theorem lookupField_eq_none_of_no_key (l : Record) (m : String)
    (h : ∀ p ∈ l, p.1 ≠ m) : lookupField l m = none := by
  induction l with
  | nil => rfl
  | cons p rest ih =>
    obtain ⟨k, v⟩ := p
    have hk : k ≠ m := h (k, v) (List.mem_cons_self _ _)
    simp only [lookupField, if_neg hk]
    exact ih (fun p hp => h p (List.mem_cons_of_mem _ hp))

theorem lookupField_mem (df : Record) (n : String) (v : Value)
    (h : lookupField df n = some v) : v ∈ df.map Prod.snd := by
  induction df with
  | nil => simp [lookupField] at h
  | cons p rest ih =>
    obtain ⟨k, w⟩ := p
    by_cases hk : k = n
    · simp only [lookupField, if_pos hk, Option.some.injEq] at h
      simp [h]
    · simp only [lookupField, if_neg hk] at h
      simp [ih h]

theorem reindex_cols (raw : Record) (schema : List String) :
    (reindexRecord raw schema).map Prod.fst = schema := by
  induction schema with
  | nil => rfl
  | cons k ks ih => simpa [reindexRecord] using ih

theorem reindex_length (raw : Record) (schema : List String) :
    (reindexRecord raw schema).length = schema.length := by
  simp [reindexRecord]

theorem lookupField_reindex (raw : Record) (schema : List String) (n : String)
    (h : n ∈ schema) :
    lookupField (reindexRecord raw schema) n =
      some ((lookupField raw n).getD (Value.num 0)) := by
  induction schema with
  | nil => simp at h
  | cons k ks ih =>
    by_cases hk : k = n
    · subst hk
      simp [reindexRecord, lookupField]
    · have hn : n ∈ ks := by
        rcases List.mem_cons.mp h with h1 | h1
        · exact absurd h1.symm hk
        · exact h1
      simpa [reindexRecord, lookupField, hk] using ih hn

theorem hasColumn_iff (df : Record) (n : String) :
    hasColumn df n = true ↔ n ∈ df.map Prod.fst := by
  simp [hasColumn, List.any_eq_true, List.mem_map]

theorem lookupField_map_set (df : Record) (n : String) (v : Value)
    (h : hasColumn df n = true) :
    lookupField (df.map (fun p => if p.1 = n then ((n, v) : String × Value) else p)) n
      = some v := by
  induction df with
  | nil => simp [hasColumn] at h
  | cons p rest ih =>
    obtain ⟨k, w⟩ := p
    by_cases hk : k = n
    · subst hk
      have hhead : (if ((k, w) : String × Value).1 = k then ((k, v) : String × Value)
          else (k, w)) = (k, v) := if_pos rfl
      rw [List.map_cons, hhead]
      simp [lookupField]
    · have hrest : hasColumn rest n = true := by
        simpa [hasColumn, hk] using h
      have hhead : (if ((k, w) : String × Value).1 = n then ((n, v) : String × Value)
          else (k, w)) = (k, w) := if_neg hk
      rw [List.map_cons, hhead]
      simpa [lookupField, hk] using ih hrest

theorem lookupField_setColumn_self (df : Record) (n : String) (v : Value) :
    lookupField (setColumn df n v) n = some v := by
  unfold setColumn
  by_cases h : hasColumn df n = true
  · rw [if_pos h]
    exact lookupField_map_set df n v h
  · rw [if_neg h, lookupField_append]
    have hnone : lookupField df n = none := by
      apply lookupField_eq_none_of_no_key
      intro p hp hpn
      exact h ((hasColumn_iff df n).mpr (List.mem_map.mpr ⟨p, hp, hpn⟩))
    simp [hnone, lookupField]

theorem lookupField_map_set_ne (df : Record) (n m : String) (v : Value)
    (hnm : n ≠ m) :
    lookupField (df.map (fun p => if p.1 = n then ((n, v) : String × Value) else p)) m
      = lookupField df m := by
  induction df with
  | nil => rfl
  | cons p rest ih =>
    obtain ⟨k, w⟩ := p
    by_cases hk : k = n
    · subst hk
      have hhead : (if ((k, w) : String × Value).1 = k then ((k, v) : String × Value)
          else (k, w)) = (k, v) := if_pos rfl
      rw [List.map_cons, hhead]
      have hkm : ¬ k = m := fun hh => hnm (hh ▸ rfl)
      simpa [lookupField, hkm] using ih
    · have hhead : (if ((k, w) : String × Value).1 = n then ((n, v) : String × Value)
          else (k, w)) = (k, w) := if_neg hk
      rw [List.map_cons, hhead]
      by_cases hm : k = m
      · simp [lookupField, hm]
      · simpa [lookupField, hm] using ih

theorem lookupField_setColumn_ne (df : Record) (n m : String) (v : Value)
    (hnm : n ≠ m) : lookupField (setColumn df n v) m = lookupField df m := by
  unfold setColumn
  by_cases h : hasColumn df n = true
  · rw [if_pos h]
    exact lookupField_map_set_ne df n m v hnm
  · rw [if_neg h, lookupField_append]
    cases hdf : lookupField df m with
    | some w => simp
    | none => simp [lookupField, hnm]

/-! ## Lemmas about the overlay loop -/

theorem cols_map_set (df : Record) (n : String) (v : Value) :
    (df.map (fun p => if p.1 = n then ((n, v) : String × Value) else p)).map Prod.fst
      = df.map Prod.fst := by
  induction df with
  | nil => rfl
  | cons p rest ih =>
    obtain ⟨k, w⟩ := p
    by_cases hk : k = n
    · subst hk
      have hhead : (if ((k, w) : String × Value).1 = k then ((k, v) : String × Value)
          else (k, w)) = (k, v) := if_pos rfl
      rw [List.map_cons, hhead]
      simpa using ih
    · have hhead : (if ((k, w) : String × Value).1 = n then ((n, v) : String × Value)
          else (k, w)) = (k, w) := if_neg hk
      rw [List.map_cons, hhead]
      simpa using ih

theorem cols_setColumn_of_mem (df : Record) (n : String) (v : Value)
    (h : n ∈ df.map Prod.fst) :
    (setColumn df n v).map Prod.fst = df.map Prod.fst := by
  unfold setColumn
  rw [if_pos ((hasColumn_iff df n).mpr h)]
  exact cols_map_set df n v

theorem cols_setColumn_of_not_mem (df : Record) (n : String) (v : Value)
    (h : ¬ n ∈ df.map Prod.fst) :
    (setColumn df n v).map Prod.fst = df.map Prod.fst ++ [n] := by
  unfold setColumn
  rw [if_neg (by simpa [hasColumn_iff] using h)]
  simp

theorem overlay_isSome (df : Record) (ss : List String) (scaled : List ℚ) :
    (overlay df ss scaled).isSome = true ↔ ss.length ≤ scaled.length := by
  induction ss generalizing df scaled with
  | nil => simp [overlay]
  | cons c cs ih =>
    cases scaled with
    | nil => simp [overlay]
    | cons v vs => simpa [overlay, Nat.succ_le_succ_iff] using ih (setColumn df c (Value.num v)) vs

theorem overlay_lookup_not_mem (df out : Record) (ss : List String)
    (scaled : List ℚ) (n : String) (hn : ¬ n ∈ ss)
    (h : overlay df ss scaled = some out) :
    lookupField out n = lookupField df n := by
  induction ss generalizing df scaled with
  | nil =>
    simp only [overlay, Option.some.injEq] at h
    rw [h]
  | cons c cs ih =>
    cases scaled with
    | nil => simp [overlay] at h
    | cons v vs =>
      have hnc : c ≠ n := fun hh => hn (hh ▸ List.mem_cons_self _ _)
      have hncs : ¬ n ∈ cs := fun hh => hn (List.mem_cons_of_mem _ hh)
      rw [ih (setColumn df c (Value.num v)) vs hncs h]
      exact lookupField_setColumn_ne df c n (Value.num v) hnc

theorem overlay_lookup_get (df out : Record) (ss : List String)
    (scaled : List ℚ) (hnd : ss.Nodup)
    (h : overlay df ss scaled = some out) (i : ℕ) (hi : i < ss.length) :
    lookupField out (ss.get ⟨i, hi⟩) = (scaled.get? i).map Value.num := by
  induction ss generalizing df scaled i with
  | nil => simp at hi
  | cons c cs ih =>
    cases scaled with
    | nil => simp [overlay] at h
    | cons v vs =>
      have hcs : ¬ c ∈ cs := (List.nodup_cons.mp hnd).1
      cases i with
      | zero =>
        simp only [List.get]
        rw [overlay_lookup_not_mem (setColumn df c (Value.num v)) out cs vs c hcs h]
        simp [lookupField_setColumn_self]
      | succ j =>
        have hj : j < cs.length := Nat.lt_of_succ_lt_succ hi
        simpa using ih (setColumn df c (Value.num v)) vs
          (List.nodup_cons.mp hnd).2 h j hj

theorem overlay_cols (df out : Record) (ss : List String) (scaled : List ℚ)
    (hnd : ss.Nodup) (h : overlay df ss scaled = some out) :
    out.map Prod.fst =
      df.map Prod.fst ++ ss.filter (fun c => decide (¬ c ∈ df.map Prod.fst)) := by
  induction ss generalizing df scaled with
  | nil =>
    simp only [overlay, Option.some.injEq] at h
    simp [h]
  | cons c cs ih =>
    cases scaled with
    | nil => simp [overlay] at h
    | cons v vs =>
      have hcs : ¬ c ∈ cs := (List.nodup_cons.mp hnd).1
      have hrec := ih (setColumn df c (Value.num v)) vs (List.nodup_cons.mp hnd).2 h
      by_cases hmem : c ∈ df.map Prod.fst
      · rw [hrec, cols_setColumn_of_mem df c (Value.num v) hmem]
        simp [List.filter_cons, hmem]
      · rw [hrec, cols_setColumn_of_not_mem df c (Value.num v) hmem]
        have hfilter : cs.filter
              (fun x => decide (¬ x ∈ (df.map Prod.fst ++ [c]))) =
            cs.filter (fun x => decide (¬ x ∈ df.map Prod.fst)) := by
          apply List.filter_congr
          intro x hx
          have hxc : x ≠ c := fun hh => hcs (hh ▸ hx)
          simp [List.mem_append, hxc]
        rw [hfilter]
        simp [List.filter_cons, hmem, List.append_assoc]

/-! ## Lemmas about coercion and the reconcile pipeline -/

theorem coerceRow_length (row : List Value) (q : List ℚ)
    (h : coerceRow row = some q) : q.length = row.length := by
  induction row generalizing q with
  | nil =>
    simp only [coerceRow, Option.some.injEq] at h
    simp [← h]
  | cons v vs ih =>
    cases hv : coerceValue v with
    | none => simp [coerceRow, hv] at h
    | some x =>
      cases hvs : coerceRow vs with
      | none => simp [coerceRow, hv, hvs] at h
      | some xs =>
        simp only [coerceRow, hv, hvs, Option.some.injEq] at h
        simp [← h, ih xs hvs]

theorem coerceRow_eq_none_of_mem (row : List Value) (s : String)
    (h : Value.nonNum s ∈ row) : coerceRow row = none := by
  induction row with
  | nil => simp at h
  | cons v vs ih =>
    rcases List.mem_cons.mp h with h1 | h1
    · simp [coerceRow, ← h1, coerceValue]
    · cases hv : coerceValue v with
      | none => simp [coerceRow, hv]
      | some x => simp [coerceRow, hv, ih h1]

theorem coerceRow_eq_some_of_all_num (row : List Value)
    (h : ∀ v ∈ row, ∃ q : ℚ, v = Value.num q) :
    ∃ qs, coerceRow row = some qs := by
  induction row with
  | nil => exact ⟨[], rfl⟩
  | cons v vs ih =>
    obtain ⟨q, hq⟩ := h v (List.mem_cons_self _ _)
    obtain ⟨qs, hqs⟩ := ih (fun w hw => h w (List.mem_cons_of_mem _ hw))
    exact ⟨q :: qs, by simp [coerceRow, hq, coerceValue, hqs]⟩

theorem coerceRow_replicate_zero (n : ℕ) :
    coerceRow (List.replicate n (Value.num 0)) = some (List.replicate n (0 : ℚ)) := by
  induction n with
  | zero => rfl
  | succ m ih =>
    simp [List.replicate_succ, coerceRow, coerceValue, ih]

theorem reindex_nil_values (schema : List String) :
    (reindexRecord [] schema).map Prod.snd =
      List.replicate schema.length (Value.num 0) := by
  induction schema with
  | nil => rfl
  | cons k ks ih =>
    simpa [reindexRecord, lookupField, List.replicate_succ] using ih

theorem reconcile_eq_ok_iff (tf : List ℚ → List ℚ) (ss ms : List String)
    (raw final : Record) :
    reconcile tf ss ms raw = Except.ok final ↔
      ∃ q, coerceRow ((reindexRecord raw ss).map Prod.snd) = some q ∧
        overlay (reindexRecord raw ms) ss (tf q) = some final := by
  unfold reconcile
  cases hc : coerceRow ((reindexRecord raw ss).map Prod.snd) with
  | none => simp [hc]
  | some q =>
    cases ho : overlay (reindexRecord raw ms) ss (tf q) with
    | none => simp [hc, ho]
    | some f => simp [hc, ho, eq_comm]

/-! ## Risk interpreter claims -/

/-- C3: For every probability p, the risk level assigned by the interpreter
is exactly "Low" when p < 0.3, "Moderate" when 0.3 <= p < 0.7, and "High"
when p >= 0.7; in particular interpret(0.29) yields Low, interpret(0.3) and
interpret(0.69) yield Moderate, and interpret(0.7) yields High. -/
theorem risk_bands (p : ℚ) :
    (p < 3/10 → riskLevel p = "Low") ∧
    (3/10 ≤ p → p < 7/10 → riskLevel p = "Moderate") ∧
    (7/10 ≤ p → riskLevel p = "High") ∧
    riskLevel (29/100) = "Low" ∧
    riskLevel (3/10) = "Moderate" ∧
    riskLevel (69/100) = "Moderate" ∧
    riskLevel (7/10) = "High" := by
  refine ⟨fun h => ?_, fun h1 h2 => ?_, fun h => ?_, ?_, ?_, ?_, ?_⟩
  · simp [riskLevel, get_risk_metadata, h]
  · simp [riskLevel, get_risk_metadata, not_lt.mpr h1, h2]
  · have h3 : ¬ p < 3/10 := not_lt.mpr (le_trans (by norm_num) h)
    have h7 : ¬ p < 7/10 := not_lt.mpr h
    simp [riskLevel, get_risk_metadata, h3, h7]
  · norm_num [riskLevel, get_risk_metadata]
  · norm_num [riskLevel, get_risk_metadata]
  · norm_num [riskLevel, get_risk_metadata]
  · norm_num [riskLevel, get_risk_metadata]

/-- Witness for `risk_bands` at the concrete probability 1/2. -/
theorem risk_bands_witness : riskLevel (1/2) = "Moderate" :=
  (risk_bands (1/2)).2.1 (by norm_num) (by norm_num)

/-- C6: For every probability p in [0,1], the interpreter returns confidence
equal to |p - 0.5| * 2, which lies in [0,1] without explicit clamping; in
particular interpret(0.5) gives confidence exactly 0.0 and interpret(0.0)
and interpret(1.0) give confidence exactly 1.0. -/
theorem confidence_formula (p : ℚ) (h0 : 0 ≤ p) (h1 : p ≤ 1) :
    confidenceOf p = |p - 1/2| * 2 ∧
    0 ≤ confidenceOf p ∧ confidenceOf p ≤ 1 ∧
    confidenceOf (1/2) = 0 ∧ confidenceOf 0 = 1 ∧ confidenceOf 1 = 1 := by
  have hdef : ∀ q : ℚ, confidenceOf q = |q - 1/2| * 2 := by
    intro q
    simp [confidenceOf, get_risk_metadata]
  have ehalf : confidenceOf (1/2) = 0 := by rw [hdef]; simp
  have e0 : confidenceOf 0 = 1 := by
    rw [hdef, abs_of_nonpos (by norm_num)]; norm_num
  have e1 : confidenceOf 1 = 1 := by
    rw [hdef, abs_of_nonneg (by norm_num)]; norm_num
  refine ⟨hdef p, ?_, ?_, ehalf, e0, e1⟩
  · rw [hdef]
    positivity
  · have hb : |p - 1/2| ≤ 1/2 := abs_le.mpr ⟨by linarith, by linarith⟩
    rw [hdef]
    linarith

/-- Witness for `confidence_formula` at the concrete probability 1/2. -/
theorem confidence_formula_witness :
    confidenceOf (1/2) = |(1/2 : ℚ) - 1/2| * 2 ∧
    0 ≤ confidenceOf (1/2) ∧ confidenceOf (1/2) ≤ 1 ∧
    confidenceOf (1/2) = 0 ∧ confidenceOf 0 = 1 ∧ confidenceOf 1 = 1 :=
  confidence_formula (1/2) (by norm_num) (by norm_num)

/-! ## Reconciliation claims -/

/-- C1 counterexample: with scaler schema ["a", "b"] and model schema ["a"],
the scaler-only column "b" is appended to the Final Matrix by the pandas
column assignment, so the matrix passed to the classifier has 2 columns,
not len(model_schema) = 1. -/
theorem scaler_only_column_appended :
    reconcile (fun r => r) ["a", "b"] ["a"] [] =
      Except.ok [("a", Value.num 0), ("b", Value.num 0)] ∧
    ¬ ([("a", Value.num 0), ("b", Value.num 0)] : Record).length =
      (["a"] : List String).length := by
  exact ⟨rfl, by decide⟩

/-- C1 amended: the Final Matrix's columns are model_schema in order,
followed by the scaler-only names in scaler-schema order; in particular,
whenever every scaler-schema name occurs in model_schema, the Final Matrix
has exactly the model_schema columns in model_schema's order, for every raw
record. -/
theorem final_matrix_columns (tf : List ℚ → List ℚ) (ss ms : List String)
    (raw final : Record) (hss : ss.Nodup)
    (hok : reconcile tf ss ms raw = Except.ok final) :
    final.map Prod.fst = ms ++ ss.filter (fun c => decide (¬ c ∈ ms)) ∧
    ((∀ n ∈ ss, n ∈ ms) → final.map Prod.fst = ms) := by
  obtain ⟨q, hc, ho⟩ := (reconcile_eq_ok_iff tf ss ms raw final).mp hok
  have hcols := overlay_cols (reindexRecord raw ms) final ss (tf q) hss ho
  rw [reindex_cols] at hcols
  refine ⟨hcols, fun hsub => ?_⟩
  have hnil : ss.filter (fun c => decide (¬ c ∈ ms)) = [] := by
    rw [List.filter_eq_nil_iff]
    intro c hc2
    simp [hsub c hc2]
  rw [hcols, hnil, List.append_nil]

/-- Witness for `final_matrix_columns` at concrete schemas and record. -/
theorem final_matrix_columns_witness :
    ([("a", Value.num 0), ("b", Value.num 0)] : Record).map Prod.fst =
      ["a", "b"] ++
        (["b"] : List String).filter (fun c => decide (¬ c ∈ (["a", "b"] : List String))) ∧
    ((∀ n ∈ (["b"] : List String), n ∈ (["a", "b"] : List String)) →
      ([("a", Value.num 0), ("b", Value.num 0)] : Record).map Prod.fst = ["a", "b"]) :=
  final_matrix_columns (fun r => r) ["b"] ["a", "b"] []
    [("a", Value.num 0), ("b", Value.num 0)] (by decide) (by rfl)

/-- C2: For every raw record and every scaler-schema column that also
appears in the model schema, the Final Matrix holds the transformed value
at that column — the output of the fitted transform applied to the coerced
scaler-aligned row — never the raw or default-filled value. -/
theorem scaler_columns_transformed (tf : List ℚ → List ℚ) (ss ms : List String)
    (raw final : Record) (hss : ss.Nodup)
    (hok : reconcile tf ss ms raw = Except.ok final)
    (i : ℕ) (hi : i < ss.length) (hmem : ss.get ⟨i, hi⟩ ∈ ms) :
    ∃ q t, coerceRow ((reindexRecord raw ss).map Prod.snd) = some q ∧
      (tf q).get? i = some t ∧
      lookupField final (ss.get ⟨i, hi⟩) = some (Value.num t) := by
  obtain ⟨q, hc, ho⟩ := (reconcile_eq_ok_iff tf ss ms raw final).mp hok
  have hlen : ss.length ≤ (tf q).length :=
    (overlay_isSome (reindexRecord raw ms) ss (tf q)).mp (by rw [ho]; rfl)
  have hi2 : i < (tf q).length := lt_of_lt_of_le hi hlen
  have hget := overlay_lookup_get (reindexRecord raw ms) final ss (tf q) hss ho i hi
  refine ⟨q, (tf q).get ⟨i, hi2⟩, hc, List.get?_eq_get hi2, ?_⟩
  rw [hget, List.get?_eq_get hi2]
  rfl

/-- Witness for `scaler_columns_transformed`: the column "bmi" of the final
matrix carries the transformed value 5, not the raw value 3. -/
theorem scaler_columns_transformed_witness :
    ∃ q t,
      coerceRow ((reindexRecord [("bmi", Value.num 3), ("age", Value.num 40)]
        ["bmi"]).map Prod.snd) = some q ∧
      ((fun r : List ℚ => List.replicate r.length 5) q).get? 0 = some t ∧
      lookupField [("age", Value.num 40), ("bmi", Value.num 5)]
        ((["bmi"] : List String).get ⟨0, by decide⟩) = some (Value.num t) :=
  scaler_columns_transformed (fun r => List.replicate r.length 5) ["bmi"] ["age", "bmi"]
    [("bmi", Value.num 3), ("age", Value.num 40)]
    [("age", Value.num 40), ("bmi", Value.num 5)]
    (by decide) (by rfl) 0 (by decide) (by decide)

/-- C4: Each schema field absent from the record is filled with exactly 0
before transformation; all-numeric records never fail; and the empty record
yields a width-len(model_schema) Final Matrix whose scaler columns equal
the transform of the all-zero row and whose remaining columns are 0. -/
theorem missing_fields_default_zero (tf : List ℚ → List ℚ) (ss ms : List String)
    (hss : ss.Nodup) (hsub : ∀ n ∈ ss, n ∈ ms)
    (htf : ∀ row, (tf row).length = row.length) :
    (∀ (raw : Record) (schema : List String) (n : String), n ∈ schema →
      lookupField raw n = none →
      lookupField (reindexRecord raw schema) n = some (Value.num 0)) ∧
    (∀ raw : Record, (∀ p ∈ raw, ∃ q : ℚ, p.2 = Value.num q) →
      ∃ final, reconcile tf ss ms raw = Except.ok final) ∧
    (∃ final, reconcile tf ss ms [] = Except.ok final ∧
      final.length = ms.length ∧
      (∀ i (hi : i < ss.length),
        lookupField final (ss.get ⟨i, hi⟩) =
          ((tf (List.replicate ss.length 0)).get? i).map Value.num) ∧
      (∀ n ∈ ms, ¬ n ∈ ss → lookupField final n = some (Value.num 0))) := by
  have hdefault : ∀ (raw : Record) (schema : List String) (n : String), n ∈ schema →
      lookupField raw n = none →
      lookupField (reindexRecord raw schema) n = some (Value.num 0) := by
    intro raw schema n hn hnone
    rw [lookupField_reindex raw schema n hn, hnone]
    rfl
  refine ⟨hdefault, ?_, ?_⟩
  · intro raw hnum
    have hall : ∀ v ∈ (reindexRecord raw ss).map Prod.snd, ∃ q : ℚ, v = Value.num q := by
      intro v hv
      obtain ⟨p, hp, hpv⟩ := List.mem_map.mp hv
      obtain ⟨n, hn, hpn⟩ := List.mem_map.mp
        (show p ∈ ss.map (fun n => ((n, (lookupField raw n).getD (Value.num 0)) :
          String × Value)) from hp)
      cases hl : lookupField raw n with
      | none =>
        refine ⟨0, ?_⟩
        rw [← hpv, ← hpn]
        simp [hl]
      | some w =>
        have hwmem : w ∈ raw.map Prod.snd := lookupField_mem raw n w hl
        obtain ⟨p2, hp2, hp2w⟩ := List.mem_map.mp hwmem
        obtain ⟨q, hq⟩ := hnum p2 hp2
        refine ⟨q, ?_⟩
        rw [← hpv, ← hpn]
        simp [hl, ← hp2w, hq]
    obtain ⟨q, hq⟩ := coerceRow_eq_some_of_all_num _ hall
    have hqlen : q.length = ss.length := by
      rw [coerceRow_length _ q hq]
      simp [reindex_length]
    have hov : (overlay (reindexRecord raw ms) ss (tf q)).isSome = true := by
      rw [overlay_isSome]
      rw [htf q, hqlen]
    obtain ⟨final, hfin⟩ := Option.isSome_iff_exists.mp hov
    exact ⟨final, (reconcile_eq_ok_iff tf ss ms raw final).mpr ⟨q, hq, hfin⟩⟩
  · have hvals : (reindexRecord [] ss).map Prod.snd =
        List.replicate ss.length (Value.num 0) := reindex_nil_values ss
    have hq : coerceRow ((reindexRecord [] ss).map Prod.snd) =
        some (List.replicate ss.length (0 : ℚ)) := by
      rw [hvals]
      exact coerceRow_replicate_zero ss.length
    have hov : (overlay (reindexRecord [] ms) ss
        (tf (List.replicate ss.length 0))).isSome = true := by
      rw [overlay_isSome, htf]
      simp
    obtain ⟨final, hfin⟩ := Option.isSome_iff_exists.mp hov
    have hok : reconcile tf ss ms [] = Except.ok final :=
      (reconcile_eq_ok_iff tf ss ms [] final).mpr
        ⟨List.replicate ss.length 0, hq, hfin⟩
    have hcols := (final_matrix_columns tf ss ms [] final hss hok).2 hsub
    refine ⟨final, hok, ?_, ?_, ?_⟩
    · have := congrArg List.length hcols
      simpa using this
    · intro i hi
      exact overlay_lookup_get (reindexRecord [] ms) final ss
        (tf (List.replicate ss.length 0)) hss hfin i hi
    · intro n hn hns
      rw [overlay_lookup_not_mem (reindexRecord [] ms) final ss
        (tf (List.replicate ss.length 0)) n hns hfin]
      exact hdefault [] ms n hn rfl

/-- Witness for `missing_fields_default_zero`: a record providing only age
has its absent bmi column filled with 0 in the reindexed frame. -/
theorem missing_fields_default_zero_witness :
    lookupField (reindexRecord [("age", Value.num 30)] ["age", "bmi"]) "bmi" =
      some (Value.num 0) :=
  (missing_fields_default_zero (fun r => r.map (fun x => x * 2)) ["bmi"]
    ["age", "bmi"] (by decide) (by decide) (fun row => by simp)).1
    [("age", Value.num 30)] ["age", "bmi"] "bmi" (by decide) (by rfl)

/-- C5: Extra fields whose names occur in neither schema are silently
ignored: reconciling with them present gives exactly the same Final Matrix
as reconciling with them stripped. -/
theorem unknown_fields_ignored (tf : List ℚ → List ℚ) (ss ms : List String)
    (raw extra : Record)
    (hextra : ∀ p ∈ extra, ¬ p.1 ∈ ss ∧ ¬ p.1 ∈ ms) :
    reconcile tf ss ms (raw ++ extra) = reconcile tf ss ms raw := by
  have key : ∀ schema : List String, (∀ p ∈ extra, ¬ p.1 ∈ schema) →
      reindexRecord (raw ++ extra) schema = reindexRecord raw schema := by
    intro schema hs
    unfold reindexRecord
    apply List.map_congr_left
    intro n hn
    have hl : lookupField (raw ++ extra) n = lookupField raw n := by
      rw [lookupField_append]
      cases hr : lookupField raw n with
      | some v => rfl
      | none =>
        exact lookupField_eq_none_of_no_key extra n
          (fun p hp hpn => (hs p hp) (hpn ▸ hn))
    rw [hl]
  unfold reconcile
  rw [key ss (fun p hp => (hextra p hp).1), key ms (fun p hp => (hextra p hp).2)]

/-- Witness for `unknown_fields_ignored`: an unknown field foo changes
nothing. -/
theorem unknown_fields_ignored_witness :
    reconcile (fun r => r) ["bmi"] ["age", "bmi"]
      ([("age", Value.num 30)] ++ [("foo", Value.num 1)]) =
    reconcile (fun r => r) ["bmi"] ["age", "bmi"] [("age", Value.num 30)] :=
  unknown_fields_ignored (fun r => r) ["bmi"] ["age", "bmi"]
    [("age", Value.num 30)] [("foo", Value.num 1)] (by decide)

/-! ## Endpoint claims -/

/-- C10: The health-check endpoint returns status "healthy" in every process
state, including when no artifacts are loaded; its artifacts_loaded boolean
is true exactly when model, scaler and feature-column list are all loaded. -/
theorem health_check_spec (model? : Option Model) (scaler? : Option Scaler)
    (feature_columns? : Option (List String)) :
    (health_check model? scaler? feature_columns?).1 = "healthy" ∧
    ((health_check model? scaler? feature_columns?).2 = true ↔
      model?.isSome ∧ scaler?.isSome ∧ feature_columns?.isSome) := by
  refine ⟨rfl, ?_⟩
  simp [health_check, and_assoc]

/-- C7: While any of the three artifacts (model, scaler, feature-column
list) is not loaded, predict returns the 503 ServiceUnavailable error for
every request, hence no prediction. -/
theorem predict_unavailable (model? : Option Model) (scaler? : Option Scaler)
    (feature_columns? : Option (List String)) (raw : Record)
    (h : model? = none ∨ scaler? = none ∨ feature_columns? = none) :
    predict model? scaler? feature_columns? raw =
      Except.error ApiError.unavailable := by
  cases model? <;> cases scaler? <;> cases feature_columns? <;>
    first
      | rfl
      | (exfalso; rcases h with h | h | h <;> simp at h)

/-- Witness for `predict_unavailable`: no artifacts at all, empty request. -/
theorem predict_unavailable_witness :
    predict none none none [] = Except.error ApiError.unavailable :=
  predict_unavailable none none none [] (Or.inl rfl)

/-- C8 counterexample: a transform whose output row is empty while the
scaler schema has one column. The width mismatch is NOT treated as a fatal
configuration error: predict answers this very request with the caught
per-request 500 internal error, and the service still reports itself
healthy with artifacts loaded. -/
theorem width_mismatch_counterexample :
    ¬ ((fun _ : List ℚ => ([] : List ℚ)) [0]).length = (["a"] : List String).length ∧
    predict (some ⟨some ["a"], fun _ => some 0⟩)
      (some ⟨some ["a"], fun _ => []⟩) (some ["a"]) [] =
      Except.error ApiError.internalError ∧
    ApiError.internalError.status = 500 ∧
    (health_check (some ⟨some ["a"], fun _ => some 0⟩)
      (some ⟨some ["a"], fun _ => []⟩) (some ["a"])).2 = true := by
  exact ⟨by decide, rfl, rfl, rfl⟩

/-- C8 amended: a transform output narrower than the scaler schema makes
the overlay loop's column index run past the transformed row (an
IndexError); the catch-all converts it into the per-request 500 internal
error, the same error as any other in-request failure, with no fatal or
startup-level handling. -/
theorem width_mismatch_per_request (m : Model) (s : Scaler) (fc : List String)
    (raw : Record) (q : List ℚ)
    (hq : coerceRow ((reindexRecord raw (s.feature_names.getD fc)).map Prod.snd)
      = some q)
    (hshort : (s.transform q).length < (s.feature_names.getD fc).length) :
    predict (some m) (some s) (some fc) raw = Except.error ApiError.internalError := by
  have hov : overlay (reindexRecord raw (m.feature_names.getD fc))
      (s.feature_names.getD fc) (s.transform q) = none := by
    cases hov2 : overlay (reindexRecord raw (m.feature_names.getD fc))
        (s.feature_names.getD fc) (s.transform q) with
    | none => rfl
    | some out =>
      have hle := (overlay_isSome (reindexRecord raw (m.feature_names.getD fc))
        (s.feature_names.getD fc) (s.transform q)).mp (by rw [hov2]; rfl)
      omega
  have hrec : reconcile s.transform (s.feature_names.getD fc)
      (m.feature_names.getD fc) raw = Except.error ReconcileError.widthMismatch := by
    unfold reconcile
    simp only [hq, hov]
  simp only [predict, hrec]

/-- Witness for `width_mismatch_per_request`: a transform returning an
empty row against a one-column scaler schema yields the 500 error. -/
theorem width_mismatch_per_request_witness :
    predict (some ⟨some ["b"], fun _ => some 0⟩)
      (some ⟨some ["b"], fun _ => []⟩) (some ["b"]) [] =
      Except.error ApiError.internalError :=
  width_mismatch_per_request ⟨some ["b"], fun _ => some 0⟩
    ⟨some ["b"], fun _ => []⟩ ["b"] [] [0] (by rfl) (by decide)

/-- C9: A feature value that cannot be coerced to a number is rejected with
a per-request error and never silently treated as 0: when the field is in
the scaler schema the reconciler fails with the dedicated non-numeric error
(distinct from the width-mismatch kind and from the 503 unavailable error),
predict returns the 500 error and no prediction; by contrast a missing
field is defaulted to 0 and is not an error. -/
theorem invalid_value_rejected (m : Model) (s : Scaler) (fc : List String)
    (raw : Record) (n str : String)
    (hval : lookupField raw n = some (Value.nonNum str))
    (hmem : n ∈ s.feature_names.getD fc ∨ n ∈ m.feature_names.getD fc) :
    predict (some m) (some s) (some fc) raw = Except.error ApiError.internalError ∧
    (n ∈ s.feature_names.getD fc →
      reconcile s.transform (s.feature_names.getD fc) (m.feature_names.getD fc) raw
        = Except.error ReconcileError.nonNumeric) ∧
    ¬ ApiError.internalError.status = ApiError.unavailable.status ∧
    (∀ raw2 : Record, lookupField raw2 n = none → ∀ schema : List String,
      n ∈ schema → lookupField (reindexRecord raw2 schema) n = some (Value.num 0)) := by
  have hrecOf : n ∈ s.feature_names.getD fc →
      reconcile s.transform (s.feature_names.getD fc) (m.feature_names.getD fc) raw
        = Except.error ReconcileError.nonNumeric := by
    intro hss
    have hnn : lookupField (reindexRecord raw (s.feature_names.getD fc)) n =
        some (Value.nonNum str) := by
      rw [lookupField_reindex raw _ n hss, hval]
      rfl
    have hmem2 : Value.nonNum str ∈
        (reindexRecord raw (s.feature_names.getD fc)).map Prod.snd :=
      lookupField_mem _ n _ hnn
    have hc : coerceRow ((reindexRecord raw (s.feature_names.getD fc)).map Prod.snd)
        = none := coerceRow_eq_none_of_mem _ str hmem2
    unfold reconcile
    simp only [hc]
  refine ⟨?_, hrecOf, by decide, ?_⟩
  · by_cases hss : n ∈ s.feature_names.getD fc
    · simp only [predict, hrecOf hss]
    · have hms : n ∈ m.feature_names.getD fc := hmem.resolve_left hss
      cases hr : reconcile s.transform (s.feature_names.getD fc)
          (m.feature_names.getD fc) raw with
      | error e => simp only [predict, hr]
      | ok final =>
        obtain ⟨q, hc, ho⟩ := (reconcile_eq_ok_iff _ _ _ raw final).mp hr
        have hlook : lookupField final n = some (Value.nonNum str) := by
          rw [overlay_lookup_not_mem _ final _ _ n hss ho,
            lookupField_reindex raw _ n hms, hval]
          rfl
        have hmem3 : Value.nonNum str ∈ final.map Prod.snd :=
          lookupField_mem final n _ hlook
        have hcoer : coerceRow (final.map Prod.snd) = none :=
          coerceRow_eq_none_of_mem _ str hmem3
        simp only [predict, hr, hcoer]
  · intro raw2 hnone schema hn
    rw [lookupField_reindex raw2 schema n hn, hnone]
    rfl

/-- Witness for `invalid_value_rejected`: a non-coercible bmi value in the
scaler schema makes predict answer with the 500 error. -/
theorem invalid_value_rejected_witness :
    predict (some ⟨some ["age", "bmi"], fun _ => some 0⟩)
      (some ⟨some ["bmi"], fun r => r⟩) (some ["age", "bmi"])
      [("bmi", Value.nonNum "abc")] = Except.error ApiError.internalError :=
  (invalid_value_rejected ⟨some ["age", "bmi"], fun _ => some 0⟩
    ⟨some ["bmi"], fun r => r⟩ ["age", "bmi"] [("bmi", Value.nonNum "abc")]
    "bmi" "abc" (by rfl) (Or.inl (by decide))).1

end LifeShield
